import Mathlib

/-!
Verification of the CCOS sandboxed capability-call bridge (guest side),
a shallow embedding of `src/ccos/src/sandbox/ccos_sdk.py`.

Modelling conventions:
- Python strings are modelled as `List Char` (sequences of unicode scalars).
- JSON values are the mutual inductive `Json` / `JArr` / `JObj`; numbers are
  modelled as integers (floats are out of scope of the claims under check).
- `dumpsChars` models `json.dumps(..., ensure_ascii=False)` with the default
  separators `", "` and `": "`; `parseJson` models `json.loads` (restricted to
  integer numbers, and decoding one `\uXXXX` escape to one scalar).
- Python values passed as capability inputs are `PyVal`; the constructor
  `PyVal.obj` stands for a non-JSON-serializable object, on which
  `json.dumps` raises `TypeError` (modelled by `pyToJson` returning `none`).
- The guest's stdin is a list of lines as returned by successive
  `sys.stdin.readline()` calls; an exhausted list (or an empty string read)
  is end-of-stream.
- Each distinct `raise` site of the Python code is one constructor of `Err`,
  carrying exactly the data interpolated into the RuntimeError message.
-/

mutual

inductive Json where
  | null : Json
  | bool (b : Bool) : Json
  | num (n : Int) : Json
  | str (s : List Char) : Json
  | arr (elems : JArr) : Json
  | obj (fields : JObj) : Json

inductive JArr where
  | nil : JArr
  | cons (hd : Json) (tl : JArr) : JArr

inductive JObj where
  | nil : JObj
  | cons (key : List Char) (val : Json) (tl : JObj) : JObj

end

mutual

inductive PyVal where
  | none : PyVal
  | bool (b : Bool) : PyVal
  | int (n : Int) : PyVal
  | str (s : List Char) : PyVal
  | list (xs : PyList) : PyVal
  | dict (kvs : PyDict) : PyVal
  | obj : PyVal

inductive PyList where
  | nil : PyList
  | cons (hd : PyVal) (tl : PyList) : PyList

inductive PyDict where
  | nil : PyDict
  | cons (key : List Char) (val : PyVal) (tl : PyDict) : PyDict

end

/-- Model of `json.dumps` for one string character: `"` and `\` are escaped,
the control characters with short escapes use them, other control characters
become `\u00XX` (lowercase hex), everything else is emitted raw
(`ensure_ascii=False`). -/
def escChar (c : Char) : List Char :=
  if c = '"' then ['\\', '"']
  else if c = '\\' then ['\\', '\\']
  else if c = '\n' then ['\\', 'n']
  else if c = '\r' then ['\\', 'r']
  else if c = '\t' then ['\\', 't']
  else if c = '\x08' then ['\\', 'b']
  else if c = '\x0c' then ['\\', 'f']
  else if c.toNat < 32 then
    ['\\', 'u', '0', '0', Nat.digitChar (c.toNat / 16), Nat.digitChar (c.toNat % 16)]
  else [c]

def escChars : List Char → List Char
  | [] => []
  | c :: cs => escChar c ++ escChars cs

/-- Decimal digits of a natural number, most significant first
(the digits part of Python `str(n)`). -/
def natToChars (n : Nat) : List Char :=
  if n < 10 then [Nat.digitChar n]
  else natToChars (n / 10) ++ [Nat.digitChar (n % 10)]

/-- Model of Python `str(n)` for an int, as emitted by `json.dumps`. -/
def intToChars : Int → List Char
  | Int.ofNat m => natToChars m
  | Int.negSucc m => '-' :: natToChars (m + 1)

mutual

/-- Model of `json.dumps(..., ensure_ascii=False)` with the default
separators `", "` and `": "` (item separator and key separator). -/
def dumpsChars : Json → List Char
  | .num n => intToChars n
  | .bool true => ['t', 'r', 'u', 'e']
  | .str s => '"' :: (escChars s ++ ['"'])
  | .bool false => ['f', 'a', 'l', 's', 'e']
  | .arr .nil => ['[', ']']
  | .arr (.cons j t) => '[' :: (dumpsChars j ++ dumpsMore t ++ [']'])
  | .null => ['n', 'u', 'l', 'l']
  | .obj .nil => ['{', '}']
  | .obj (.cons k v t) =>
      '{' :: '"' :: (escChars k ++ '"' :: ':' :: ' ' :: (dumpsChars v ++ dumpsMoreF t ++ ['}']))

def dumpsMore : JArr → List Char
  | .nil => []
  | .cons j t => ',' :: ' ' :: (dumpsChars j ++ dumpsMore t)

def dumpsMoreF : JObj → List Char
  | .nil => []
  | .cons k v t =>
      ',' :: ' ' :: '"' :: (escChars k ++ '"' :: ':' :: ' ' :: (dumpsChars v ++ dumpsMoreF t))

end

def isWsChar (c : Char) : Bool :=
  c = ' ' || c = '\t' || c = '\n' || c = '\r'

def skipWs : List Char → List Char
  | [] => []
  | c :: cs => if isWsChar c then skipWs cs else c :: cs

/-- Value of one hexadecimal digit, as accepted in a JSON `\uXXXX` escape. -/
def hexVal (c : Char) : Option Nat :=
  if '0' ≤ c ∧ c ≤ '9' then Option.some (c.toNat - 48)
  else if 'a' ≤ c ∧ c ≤ 'f' then Option.some (c.toNat - 87)
  else if 'A' ≤ c ∧ c ≤ 'F' then Option.some (c.toNat - 55)
  else Option.none

/-- Short JSON string escapes (`\"`, `\\`, `\/`, `\b`, `\f`, `\n`, `\r`, `\t`). -/
def escDecode (e : Char) : Option Char :=
  if e = '"' then Option.some '"'
  else if e = '\\' then Option.some '\\'
  else if e = '/' then Option.some '/'
  else if e = 'b' then Option.some '\x08'
  else if e = 'f' then Option.some '\x0c'
  else if e = 'n' then Option.some '\n'
  else if e = 'r' then Option.some '\r'
  else if e = 't' then Option.some '\t'
  else Option.none

/-- Body of a JSON string after the opening quote: returns the decoded
characters and the input remaining after the closing quote.  Raw control
characters are rejected (strict mode of `json.loads`). -/
def parseStrAux : List Char → Option (List Char × List Char)
  | [] => Option.none
  | c :: cs =>
    if c = '"' then Option.some ([], cs)
    else if c = '\\' then
      match cs with
      | [] => Option.none
      | e :: cs2 =>
        if e = 'u' then
          match cs2 with
          | a :: b :: c3 :: d :: cs3 =>
            match hexVal a, hexVal b, hexVal c3, hexVal d with
            | Option.some ha, Option.some hb, Option.some hc, Option.some hd =>
              (parseStrAux cs3).map fun p =>
                (Char.ofNat (((ha * 16 + hb) * 16 + hc) * 16 + hd) :: p.1, p.2)
            | _, _, _, _ => Option.none
          | _ => Option.none
        else
          match escDecode e with
          | Option.some d => (parseStrAux cs2).map fun p => (d :: p.1, p.2)
          | Option.none => Option.none
    else if c.toNat < 32 then Option.none
    else (parseStrAux cs).map fun p => (c :: p.1, p.2)

/-- Greedily read decimal digits, accumulating their value. -/
def parseNatAux (acc : Nat) : List Char → Nat × List Char
  | [] => (acc, [])
  | c :: cs => if c.isDigit then parseNatAux (acc * 10 + (c.toNat - 48)) cs else (acc, c :: cs)

/-- Whether `p` is an initial segment of `l` (Python's `str.startswith`). -/
def beginsWith : List Char → List Char → Bool
  | [], _ => true
  | _ :: _, [] => false
  | p :: ps, c :: cs => p == c && beginsWith ps cs

mutual

/-- Fuel-indexed JSON value parser (model of the `json.loads` grammar,
restricted to integer numbers). -/
def parseVal (fuel : Nat) (cs : List Char) : Option (Json × List Char) :=
  match fuel with
  | 0 => Option.none
  | f + 1 =>
    match skipWs cs with
    | [] => Option.none
    | c :: rest =>
      if c = 'n' then
        if beginsWith ['u', 'l', 'l'] rest then Option.some (Json.null, rest.drop 3)
        else Option.none
      else if c = 't' then
        if beginsWith ['r', 'u', 'e'] rest then Option.some (Json.bool true, rest.drop 3)
        else Option.none
      else if c = 'f' then
        if beginsWith ['a', 'l', 's', 'e'] rest then Option.some (Json.bool false, rest.drop 4)
        else Option.none
      else if c = '"' then
        (parseStrAux rest).map fun p => (Json.str p.1, p.2)
      else if c = '[' then
        match skipWs rest with
        | [] => Option.none
        | d :: r2 =>
          if d = ']' then Option.some (Json.arr JArr.nil, r2)
          else (parseItems f (d :: r2)).map fun p => (Json.arr p.1, p.2)
      else if c = '{' then
        match skipWs rest with
        | [] => Option.none
        | d :: r2 =>
          if d = '}' then Option.some (Json.obj JObj.nil, r2)
          else (parseFields f (d :: r2)).map fun p => (Json.obj p.1, p.2)
      else if c = '-' then
        match rest with
        | [] => Option.none
        | d :: _ =>
          if d.isDigit then
            Option.some (Json.num (-(Int.ofNat (parseNatAux 0 rest).1)), (parseNatAux 0 rest).2)
          else Option.none
      else if c.isDigit then
        Option.some (Json.num (Int.ofNat (parseNatAux 0 (c :: rest)).1),
          (parseNatAux 0 (c :: rest)).2)
      else Option.none

/-- One or more comma-separated array items followed by `]`. -/
def parseItems (fuel : Nat) (cs : List Char) : Option (JArr × List Char) :=
  match fuel with
  | 0 => Option.none
  | f + 1 =>
    match parseVal f cs with
    | Option.none => Option.none
    | Option.some (j, rest) =>
      match skipWs rest with
      | [] => Option.none
      | c :: r =>
        if c = ']' then Option.some (JArr.cons j JArr.nil, r)
        else if c = ',' then (parseItems f r).map fun p => (JArr.cons j p.1, p.2)
        else Option.none

/-- One or more comma-separated `"key": value` fields followed by `}`. -/
def parseFields (fuel : Nat) (cs : List Char) : Option (JObj × List Char) :=
  match fuel with
  | 0 => Option.none
  | f + 1 =>
    match skipWs cs with
    | [] => Option.none
    | c :: rest =>
      if c = '"' then
        match parseStrAux rest with
        | Option.none => Option.none
        | Option.some (k, rest2) =>
          match skipWs rest2 with
          | [] => Option.none
          | c2 :: rest3 =>
            if c2 = ':' then
              match parseVal f rest3 with
              | Option.none => Option.none
              | Option.some (v, rest4) =>
                match skipWs rest4 with
                | [] => Option.none
                | c3 :: r =>
                  if c3 = '}' then Option.some (JObj.cons k v JObj.nil, r)
                  else if c3 = ',' then
                    (parseFields f r).map fun p => (JObj.cons k v p.1, p.2)
                  else Option.none
            else Option.none
      else Option.none

end

def isAllWs (cs : List Char) : Bool := cs.all isWsChar

/-- Model of `json.loads`: parse one JSON value, allowing surrounding
whitespace and rejecting trailing data. -/
def parseJson (cs : List Char) : Option Json :=
  match parseVal (2 * cs.length + 2) cs with
  | Option.some (j, rest) => if isAllWs rest then Option.some j else Option.none
  | Option.none => Option.none

/-- Model of Python `dict.get` on a decoded JSON object: with duplicate
keys, `json.loads` keeps the last occurrence, so the last binding wins. -/
def jsonGet : JObj → List Char → Option Json
  | .nil, _ => Option.none
  | .cons k v rest, key =>
    match jsonGet rest key with
    | Option.some w => Option.some w
    | Option.none => if k = key then Option.some v else Option.none

/-- Python truthiness of a value decoded from JSON (`None`, `False`, `0`,
`""`, `[]` and `{}` are falsy, everything else truthy). -/
def truthy : Json → Bool
  | .null => false
  | .bool b => b
  | .num n => if n = 0 then false else true
  | .str [] => false
  | .str (_ :: _) => true
  | .arr .nil => false
  | .arr (.cons _ _) => true
  | .obj .nil => false
  | .obj (.cons _ _ _) => true

/-- Truthiness of `d.get(k)`: a missing key yields `None`, which is falsy. -/
def optTruthy : Option Json → Bool
  | Option.none => false
  | Option.some j => truthy j

/-- Model of `line.rstrip("\n")`: remove every trailing newline character. -/
def rstripNl (cs : List Char) : List Char :=
  (List.dropWhile (fun c => c == '\n') cs.reverse).reverse

def callMarker : List Char :=
  ['C', 'C', 'O', 'S', '_', 'C', 'A', 'L', 'L', ':', ':']

def resultMarker : List Char :=
  ['C', 'C', 'O', 'S', '_', 'R', 'E', 'S', 'U', 'L', 'T', ':', ':']

def capKey : List Char := ['c', 'a', 'p']

def inputsKey : List Char := ['i', 'n', 'p', 'u', 't', 's']

def successKey : List Char := ['s', 'u', 'c', 'c', 'e', 's', 's']

def valueKey : List Char := ['v', 'a', 'l', 'u', 'e']

def errorKey : List Char := ['e', 'r', 'r', 'o', 'r']

def foundKey : List Char := ['f', 'o', 'u', 'n', 'd']

def keyKey : List Char := ['k', 'e', 'y']

def defaultKey : List Char := ['d', 'e', 'f', 'a', 'u', 'l', 't']

def messageKey : List Char := ['m', 'e', 's', 's', 'a', 'g', 'e']

def memGetCap : List Char :=
  ['c', 'c', 'o', 's', '.', 'm', 'e', 'm', 'o', 'r', 'y', '.', 'g', 'e', 't']

def ioLogCap : List Char :=
  ['c', 'c', 'o', 's', '.', 'i', 'o', '.', 'l', 'o', 'g']

def unknownErrorMsg : List Char :=
  ['u', 'n', 'k', 'n', 'o', 'w', 'n', ' ', 'e', 'r', 'r', 'o', 'r']

mutual

/-- Which JSON value a Python value serializes to; `Option.none` models
`json.dumps` raising `TypeError` on a non-serializable object. -/
def pyToJson : PyVal → Option Json
  | .none => Option.some Json.null
  | .bool b => Option.some (Json.bool b)
  | .int n => Option.some (Json.num n)
  | .str s => Option.some (Json.str s)
  | .list xs => (pyListToJson xs).map Json.arr
  | .dict kvs => (pyDictToJson kvs).map Json.obj
  | .obj => Option.none

def pyListToJson : PyList → Option JArr
  | .nil => Option.some JArr.nil
  | .cons x t =>
    match pyToJson x, pyListToJson t with
    | Option.some j, Option.some jt => Option.some (JArr.cons j jt)
    | _, _ => Option.none

def pyDictToJson : PyDict → Option JObj
  | .nil => Option.some JObj.nil
  | .cons k v t =>
    match pyToJson v, pyDictToJson t with
    | Option.some j, Option.some jt => Option.some (JObj.cons k j jt)
    | _, _ => Option.none

end

mutual

/-- The Python value produced by `json.loads` for a JSON value
(`null` to `None`, objects to dicts, and so on). -/
def jsonToPy : Json → PyVal
  | .null => PyVal.none
  | .bool b => PyVal.bool b
  | .num n => PyVal.int n
  | .str s => PyVal.str s
  | .arr a => PyVal.list (jArrToPy a)
  | .obj o => PyVal.dict (jObjToPy o)

def jArrToPy : JArr → PyList
  | .nil => PyList.nil
  | .cons j t => PyList.cons (jsonToPy j) (jArrToPy t)

def jObjToPy : JObj → PyDict
  | .nil => PyDict.nil
  | .cons k v t => PyDict.cons k (jsonToPy v) (jObjToPy t)

end

/-- The exceptions `_call` can raise.  Each constructor corresponds to one
raise site (or propagated exception) in the Python code and carries the data
interpolated into its message:
- `typeError`: `json.dumps` failed on non-serializable inputs;
- `hostDisconnected`: stdin was exhausted before a response line
  (message names the in-flight capability);
- `protocolViolation`: the line read does not start with `CCOS_RESULT::`
  (message quotes the rstripped offending line);
- `jsonError`: `json.loads` failed on the response payload;
- `attrError`: the decoded payload is not a dict, so `.get` raised;
- `capabilityError`: the payload's `success` is falsy (message carries the
  payload's `error` field, defaulting to `unknown error`). -/
inductive Err where
  | typeError : Err
  | hostDisconnected (cap : List Char) : Err
  | protocolViolation (cap : List Char) (line : List Char) : Err
  | jsonError : Err
  | attrError : Err
  | capabilityError (cap : List Char) (errValue : Json) : Err

/-- The observable effect of one `_call`: everything written to stdout, the
returned value or raised exception, and the stdin lines not yet consumed. -/
structure CallOut where
  out : List Char
  result : Except Err Json
  stdinRest : List (List Char)

/-- The `CCOS_CALL` payload `{"cap": cap, "inputs": inputs}` (Python dicts
preserve insertion order, which `json.dumps` reproduces). -/
def requestPayload (cap : List Char) (inputsJ : Json) : Json :=
  Json.obj (JObj.cons capKey (Json.str cap) (JObj.cons inputsKey inputsJ JObj.nil))

/-- Shallow embedding of `_call(cap, inputs)` from `ccos_sdk.py`:
serialize the request, write one `CCOS_CALL::` line, read one line,
then check EOF, the `CCOS_RESULT::` marker, decode the payload and
dispatch on its `success` field. -/
def callImpl (cap : List Char) (inputs : PyVal) (stdin : List (List Char)) : CallOut :=
  match pyToJson inputs with
  | Option.none => ⟨[], Except.error Err.typeError, stdin⟩
  | Option.some j =>
    let line := callMarker ++ dumpsChars (requestPayload cap j) ++ ['\n']
    match stdin with
    | [] => ⟨line, Except.error (Err.hostDisconnected cap), []⟩
    | raw :: rest =>
      if raw = [] then ⟨line, Except.error (Err.hostDisconnected cap), rest⟩
      else
        let stripped := rstripNl raw
        if beginsWith resultMarker stripped then
          match parseJson (stripped.drop resultMarker.length) with
          | Option.none => ⟨line, Except.error Err.jsonError, rest⟩
          | Option.some (Json.obj kvs) =>
            if optTruthy (jsonGet kvs successKey) then
              ⟨line, Except.ok ((jsonGet kvs valueKey).getD Json.null), rest⟩
            else
              ⟨line, Except.error (Err.capabilityError cap
                ((jsonGet kvs errorKey).getD (Json.str unknownErrorMsg))), rest⟩
          | Option.some _ => ⟨line, Except.error Err.attrError, rest⟩
        else ⟨line, Except.error (Err.protocolViolation cap stripped), rest⟩

/-- The observable effect of one `_Memory.get`. -/
structure MemOut where
  out : List Char
  result : Except Err PyVal
  stdinRest : List (List Char)

/-- Shallow embedding of `_Memory.get(key, default)`: call
`ccos.memory.get` with `{"key": key, "default": default}`; if the decoded
result is a dict whose `found` is truthy return its `value` (defaulting to
`default` when the key is absent), otherwise return `default`. -/
def memoryGet (key : List Char) (dflt : PyVal) (stdin : List (List Char)) : MemOut :=
  let c := callImpl memGetCap
    (PyVal.dict (PyDict.cons keyKey (PyVal.str key) (PyDict.cons defaultKey dflt PyDict.nil)))
    stdin
  match c.result with
  | Except.error e => ⟨c.out, Except.error e, c.stdinRest⟩
  | Except.ok r =>
    match r with
    | Json.obj kvs =>
      if optTruthy (jsonGet kvs foundKey) then
        ⟨c.out, Except.ok (((jsonGet kvs valueKey).map jsonToPy).getD dflt), c.stdinRest⟩
      else ⟨c.out, Except.ok dflt, c.stdinRest⟩
    | _ => ⟨c.out, Except.ok dflt, c.stdinRest⟩

/-- The observable effect of one `_IO.log`. -/
structure LogOut where
  out : List Char
  result : Except Err Unit
  stdinRest : List (List Char)

/-- Shallow embedding of `_IO.log(message)`: call `ccos.io.log` with
`{"message": message}` inside `try ... except Exception: pass`, so both a
normal return and any raised exception yield a normal `()` return. -/
def ioLog (message : List Char) (stdin : List (List Char)) : LogOut :=
  let c := callImpl ioLogCap (PyVal.dict (PyDict.cons messageKey (PyVal.str message) PyDict.nil))
    stdin
  match c.result with
  | Except.ok _ => ⟨c.out, Except.ok (), c.stdinRest⟩
  | Except.error _ => ⟨c.out, Except.ok (), c.stdinRest⟩

/-- One stdin line as produced by `readline`: the host's response marker,
a payload, and the trailing newline. -/
def resultLine (body : List Char) : List Char :=
  resultMarker ++ body ++ ['\n']

/-- Input that does not continue a decimal number: empty, or starting with a
non-digit.  Every separator the serializer places after a number satisfies
this, which is what makes greedy digit reading invertible. -/
def noDigitHead : List Char → Prop
  | [] => True
  | c :: _ => c.isDigit = false

theorem skipWs_cons_false {c : Char} (cs : List Char) (h : isWsChar c = false) :
    skipWs (c :: cs) = c :: cs := by
  simp [skipWs, h]

theorem beginsWith_append (p l : List Char) : beginsWith p (p ++ l) = true := by
  induction p with
  | nil => rfl
  | cons c cs ih => simp [beginsWith, ih]

theorem digit_ne {c : Char} (x : Char) (h : c.isDigit = true) (hx : x.isDigit = false) :
    c ≠ x := by
  intro e
  rw [e, hx] at h
  exact Bool.false_ne_true h

theorem digit_not_ws {c : Char} (h : c.isDigit = true) : isWsChar c = false := by
  have h1 : c ≠ ' ' := digit_ne ' ' h (by decide)
  have h2 : c ≠ '\t' := digit_ne '\t' h (by decide)
  have h3 : c ≠ '\n' := digit_ne '\n' h (by decide)
  have h4 : c ≠ '\r' := digit_ne '\r' h (by decide)
  simp [isWsChar, h1, h2, h3, h4]

theorem parseNatAux_stop (acc : Nat) (cs : List Char) (h : noDigitHead cs) :
    parseNatAux acc cs = (acc, cs) := by
  cases cs with
  | nil => rfl
  | cons c t =>
    have hc : c.isDigit = false := h
    simp [parseNatAux, hc]

theorem parseNatAux_append (ds : List Char) (rest : List Char) (acc : Nat)
    (hd : ∀ c ∈ ds, c.isDigit = true) (hr : noDigitHead rest) :
    parseNatAux acc (ds ++ rest)
      = (ds.foldl (fun a c => a * 10 + (c.toNat - 48)) acc, rest) := by
  induction ds generalizing acc with
  | nil => simpa using parseNatAux_stop acc rest hr
  | cons c t ih =>
    have hc : c.isDigit = true := hd c (by simp)
    have ht : ∀ x ∈ t, x.isDigit = true := fun x hx => hd x (by simp [hx])
    simp only [List.cons_append, parseNatAux, hc, if_true, List.foldl_cons]
    exact ih _ ht

theorem digitChar_isDigit {d : Nat} (h : d < 10) : (Nat.digitChar d).isDigit = true := by
  interval_cases d <;> decide

theorem digitChar_toNat {d : Nat} (h : d < 10) : (Nat.digitChar d).toNat - 48 = d := by
  interval_cases d <;> decide

theorem natToChars_digits (n : Nat) : ∀ c ∈ natToChars n, c.isDigit = true := by
  induction n using natToChars.induct with
  | case1 n h =>
    rw [natToChars, if_pos h]
    intro c hc
    simp at hc
    rw [hc]
    exact digitChar_isDigit h
  | case2 n h ih =>
    rw [natToChars, if_neg h]
    intro c hc
    rcases List.mem_append.mp hc with hc | hc
    · exact ih c hc
    · simp at hc
      rw [hc]
      exact digitChar_isDigit (Nat.mod_lt _ (by omega))

/-- Ten to the number of digits the serializer emits for `n`. -/
def tenPow (n : Nat) : Nat := 10 ^ (natToChars n).length

theorem natToChars_foldl (n : Nat) :
    ∀ acc : Nat, (natToChars n).foldl (fun a c => a * 10 + (c.toNat - 48)) acc
      = acc * tenPow n + n := by
  induction n using natToChars.induct with
  | case1 n h =>
    intro acc
    rw [tenPow, natToChars, if_pos h]
    simp [digitChar_toNat h]
  | case2 n h ih =>
    intro acc
    have hlen : (natToChars n).length = (natToChars (n / 10)).length + 1 := by
      rw [natToChars, if_neg h]
      simp
    have hpow : tenPow n = tenPow (n / 10) * 10 := by
      rw [tenPow, tenPow, hlen, pow_succ]
    rw [natToChars, if_neg h, List.foldl_append, ih acc]
    simp [digitChar_toNat (Nat.mod_lt n (show 0 < 10 by omega)), hpow]
    have := Nat.div_add_mod n 10
    ring_nf
    omega

theorem natToChars_shape (n : Nat) :
    ∃ c t, natToChars n = c :: t ∧ c.isDigit = true := by
  induction n using natToChars.induct with
  | case1 n h =>
    exact ⟨Nat.digitChar n, [], by rw [natToChars, if_pos h], digitChar_isDigit h⟩
  | case2 n h ih =>
    obtain ⟨c, t, he, hc⟩ := ih
    exact ⟨c, t ++ [Nat.digitChar (n % 10)], by rw [natToChars, if_neg h, he]; simp, hc⟩

theorem parseNat_round (n : Nat) (rest : List Char) (hr : noDigitHead rest) :
    parseNatAux 0 (natToChars n ++ rest) = (n, rest) := by
  rw [parseNatAux_append (natToChars n) rest 0 (natToChars_digits n) hr,
    natToChars_foldl n 0]
  simp

theorem hexVal_digitChar {d : Nat} (h : d < 16) : hexVal (Nat.digitChar d) = Option.some d := by
  interval_cases d <;> decide

theorem escRound (s : List Char) :
    ∀ rest, parseStrAux (escChars s ++ '"' :: rest) = Option.some (s, rest) := by
  induction s with
  | nil =>
    intro rest
    rw [escChars, List.nil_append, parseStrAux.eq_def]
    simp
  | cons c t ih =>
    intro rest
    rw [escChars, escChar]
    split_ifs with h1 h2 h3 h4 h5 h6 h7 h8
    · subst h1; rw [List.cons_append, List.cons_append, parseStrAux.eq_def]
      simp [escDecode, ih]
    · subst h2; rw [List.cons_append, List.cons_append, parseStrAux.eq_def]
      simp [escDecode, ih]
    · subst h3; rw [List.cons_append, List.cons_append, parseStrAux.eq_def]
      simp [escDecode, ih]
    · subst h4; rw [List.cons_append, List.cons_append, parseStrAux.eq_def]
      simp [escDecode, ih]
    · subst h5; rw [List.cons_append, List.cons_append, parseStrAux.eq_def]
      simp [escDecode, ih]
    · subst h6; rw [List.cons_append, List.cons_append, parseStrAux.eq_def]
      simp [escDecode, ih]
    · subst h7; rw [List.cons_append, List.cons_append, parseStrAux.eq_def]
      simp [escDecode, ih]
    · have hdiv : c.toNat / 16 < 16 := by omega
      have hmod : c.toNat % 16 < 16 := Nat.mod_lt _ (by omega)
      have harith : ((0 * 16 + 0) * 16 + c.toNat / 16) * 16 + c.toNat % 16 = c.toNat := by
        omega
      simp only [List.cons_append, List.nil_append]
      rw [parseStrAux.eq_def]
      simp only [reduceIte, Char.reduceEq]
      rw [show hexVal '0' = Option.some 0 from by decide,
        hexVal_digitChar hdiv, hexVal_digitChar hmod]
      simp [ih, harith, Char.ofNat_toNat]
      have h9 : c.toNat / 16 * 16 + c.toNat % 16 = c.toNat := by omega
      rw [h9, Char.ofNat_toNat]
    · rw [List.singleton_append, parseStrAux.eq_def]
      simp [h1, h2, h8, ih]

mutual

/-- Fuel needed by `parseVal` to consume the serialization of a value. -/
def sizeV : Json → Nat
  | .arr a => 1 + sizeA a
  | .num _ => 1
  | .obj o => 1 + sizeO o
  | .bool _ => 1
  | .str _ => 1
  | .null => 1

def sizeA : JArr → Nat
  | .nil => 1
  | .cons j t => 1 + sizeV j + sizeA t

def sizeO : JObj → Nat
  | .nil => 1
  | .cons _ v t => 1 + sizeV v + sizeO t

end

theorem sizeV_pos (j : Json) : 1 ≤ sizeV j := by
  cases j <;> simp [sizeV]

theorem sizeA_pos (a : JArr) : 1 ≤ sizeA a := by
  cases a with
  | nil => simp [sizeA]
  | cons j t => simp [sizeA]; omega

theorem sizeO_pos (o : JObj) : 1 ≤ sizeO o := by
  cases o with
  | nil => simp [sizeO]
  | cons k v t => simp [sizeO]; omega

theorem ndh_more (t : JArr) (rest : List Char) :
    noDigitHead (dumpsMore t ++ ']' :: rest) := by
  cases t with
  | nil => exact (by decide : (']' : Char).isDigit = false)
  | cons j u => exact (by decide : ((',' : Char)).isDigit = false)

theorem ndh_moreF (t : JObj) (rest : List Char) :
    noDigitHead (dumpsMoreF t ++ '}' :: rest) := by
  cases t with
  | nil => exact (by decide : (('}' : Char)).isDigit = false)
  | cons k v u => exact (by decide : ((',' : Char)).isDigit = false)

/-- Every serialized value starts with a character that is not whitespace and
not a closing bracket, so the parser's leading `skipWs` and the bracket tests
in array/object position see the value itself. -/
theorem dumps_head (j : Json) :
    ∃ c t', dumpsChars j = c :: t' ∧ isWsChar c = false ∧ c ≠ ']' ∧ c ≠ '}' := by
  cases j with
  | null => exact ⟨'n', _, by rw [dumpsChars], by decide, by decide, by decide⟩
  | bool b =>
    cases b with
    | true => exact ⟨'t', _, by rw [dumpsChars], by decide, by decide, by decide⟩
    | false => exact ⟨'f', _, by rw [dumpsChars], by decide, by decide, by decide⟩
  | num n =>
    cases n with
    | ofNat m =>
      obtain ⟨c, t, he, hc⟩ := natToChars_shape m
      exact ⟨c, t, by rw [dumpsChars, intToChars, he], digit_not_ws hc,
        digit_ne ']' hc (by decide), digit_ne '}' hc (by decide)⟩
    | negSucc m =>
      exact ⟨'-', _, by rw [dumpsChars, intToChars], by decide, by decide, by decide⟩
  | str s => exact ⟨'"', _, by rw [dumpsChars], by decide, by decide, by decide⟩
  | arr a =>
    cases a with
    | nil => exact ⟨'[', _, by rw [dumpsChars], by decide, by decide, by decide⟩
    | cons x u => exact ⟨'[', _, by rw [dumpsChars], by decide, by decide, by decide⟩
  | obj o =>
    cases o with
    | nil => exact ⟨'{', _, by rw [dumpsChars], by decide, by decide, by decide⟩
    | cons k v u => exact ⟨'{', _, by rw [dumpsChars], by decide, by decide, by decide⟩

theorem skipWs_sp (cs : List Char) : skipWs (' ' :: cs) = skipWs cs := by
  simp [skipWs, isWsChar]

theorem exists_succ_eq {f : Nat} (h : 1 ≤ f) : ∃ g, f = g + 1 := ⟨f - 1, by omega⟩

theorem parseVal_sp (f : Nat) (cs : List Char) (h : 1 ≤ f) :
    parseVal f (' ' :: cs) = parseVal f cs := by
  obtain ⟨g, rfl⟩ := exists_succ_eq h
  rw [parseVal.eq_def]
  conv_rhs => rw [parseVal.eq_def]
  rw [skipWs_sp]

theorem parseItems_succ (f : Nat) (cs : List Char) :
    parseItems (f + 1) cs =
      match parseVal f cs with
      | Option.none => Option.none
      | Option.some (j, rest) =>
        match skipWs rest with
        | [] => Option.none
        | c :: r =>
          if c = ']' then Option.some (JArr.cons j JArr.nil, r)
          else if c = ',' then (parseItems f r).map fun p => (JArr.cons j p.1, p.2)
          else Option.none := rfl

theorem parseFields_succ (f : Nat) (cs : List Char) :
    parseFields (f + 1) cs =
      match skipWs cs with
      | [] => Option.none
      | c :: rest =>
        if c = '"' then
          match parseStrAux rest with
          | Option.none => Option.none
          | Option.some (k, rest2) =>
            match skipWs rest2 with
            | [] => Option.none
            | c2 :: rest3 =>
              if c2 = ':' then
                match parseVal f rest3 with
                | Option.none => Option.none
                | Option.some (v, rest4) =>
                  match skipWs rest4 with
                  | [] => Option.none
                  | c3 :: r =>
                    if c3 = '}' then Option.some (JObj.cons k v JObj.nil, r)
                    else if c3 = ',' then
                      (parseFields f r).map fun p => (JObj.cons k v p.1, p.2)
                    else Option.none
              else Option.none
        else Option.none := rfl

theorem parseItems_sp (f : Nat) (cs : List Char) (h : 2 ≤ f) :
    parseItems f (' ' :: cs) = parseItems f cs := by
  obtain ⟨g, rfl⟩ := exists_succ_eq (show 1 ≤ f by omega)
  rw [parseItems_succ, parseItems_succ, parseVal_sp g cs (by omega)]

theorem parseFields_sp (f : Nat) (cs : List Char) (h : 1 ≤ f) :
    parseFields f (' ' :: cs) = parseFields f cs := by
  obtain ⟨g, rfl⟩ := exists_succ_eq h
  rw [parseFields_succ, parseFields_succ, skipWs_sp]

mutual

/-- Round trip: the parser inverts the serializer on any value, given
enough fuel and a continuation that cannot extend a number. -/
def rtV : ∀ (j : Json) (fuel : Nat) (rest : List Char), sizeV j ≤ fuel → noDigitHead rest →
    parseVal fuel (dumpsChars j ++ rest) = Option.some (j, rest)
  | .null, fuel, rest, hf, _ => by
    obtain ⟨f, rfl⟩ : ∃ f, fuel = f + 1 := ⟨fuel - 1, by have := sizeV_pos Json.null; omega⟩
    rw [dumpsChars, parseVal.eq_def]
    simp only [List.cons_append, List.nil_append]
    rw [skipWs_cons_false _ (by decide)]
    simp [beginsWith]
  | .bool true, fuel, rest, hf, _ => by
    obtain ⟨f, rfl⟩ : ∃ f, fuel = f + 1 := ⟨fuel - 1, by have := sizeV_pos (Json.bool true); omega⟩
    rw [dumpsChars, parseVal.eq_def]
    simp only [List.cons_append, List.nil_append]
    rw [skipWs_cons_false _ (by decide)]
    simp [beginsWith]
  | .bool false, fuel, rest, hf, _ => by
    obtain ⟨f, rfl⟩ : ∃ f, fuel = f + 1 := ⟨fuel - 1, by have := sizeV_pos (Json.bool false); omega⟩
    rw [dumpsChars, parseVal.eq_def]
    simp only [List.cons_append, List.nil_append]
    rw [skipWs_cons_false _ (by decide)]
    simp [beginsWith]
  | .num (Int.ofNat m), fuel, rest, hf, hr => by
    obtain ⟨f, rfl⟩ : ∃ f, fuel = f + 1 :=
      ⟨fuel - 1, by have := sizeV_pos (Json.num (Int.ofNat m)); omega⟩
    rw [dumpsChars, intToChars, parseVal.eq_def]
    obtain ⟨c, t, he, hc⟩ := natToChars_shape m
    rw [he]
    simp only [List.cons_append]
    rw [skipWs_cons_false _ (digit_not_ws hc)]
    have h1 := digit_ne 'n' hc (by decide)
    have h2 := digit_ne 't' hc (by decide)
    have h3 := digit_ne 'f' hc (by decide)
    have h4 := digit_ne '"' hc (by decide)
    have h5 := digit_ne '[' hc (by decide)
    have h6 := digit_ne '{' hc (by decide)
    have h7 := digit_ne '-' hc (by decide)
    simp only [h1, h2, h3, h4, h5, h6, h7, hc, if_false, ite_false, if_true, ite_true]
    rw [← List.cons_append, ← he, parseNat_round m rest hr]
  | .num (Int.negSucc m), fuel, rest, hf, hr => by
    obtain ⟨f, rfl⟩ : ∃ f, fuel = f + 1 :=
      ⟨fuel - 1, by have := sizeV_pos (Json.num (Int.negSucc m)); omega⟩
    rw [dumpsChars, intToChars, parseVal.eq_def]
    simp only [List.cons_append]
    rw [skipWs_cons_false _ (by decide)]
    obtain ⟨c, t, he, hc⟩ := natToChars_shape (m + 1)
    rw [he]
    simp only [List.cons_append, Char.reduceEq, if_false, ite_false, if_true, ite_true,
      reduceIte, hc]
    rw [← List.cons_append, ← he, parseNat_round (m + 1) rest hr]
    rfl
  | .str s, fuel, rest, hf, _ => by
    obtain ⟨f, rfl⟩ : ∃ f, fuel = f + 1 := ⟨fuel - 1, by have := sizeV_pos (Json.str s); omega⟩
    rw [dumpsChars, parseVal.eq_def]
    simp only [List.cons_append, List.append_assoc, List.singleton_append, List.nil_append]
    rw [skipWs_cons_false _ (by decide)]
    simp only [Char.reduceEq, if_false, ite_false, if_true, ite_true, reduceIte]
    rw [escRound s rest]
    rfl
  | .arr .nil, fuel, rest, hf, _ => by
    obtain ⟨f, rfl⟩ : ∃ f, fuel = f + 1 :=
      ⟨fuel - 1, by have := sizeV_pos (Json.arr JArr.nil); omega⟩
    rw [dumpsChars, parseVal.eq_def]
    simp only [List.cons_append, List.nil_append]
    rw [skipWs_cons_false _ (by decide)]
    simp [skipWs_cons_false, isWsChar]
  | .arr (.cons j t), fuel, rest, hf, _ => by
    obtain ⟨f, rfl⟩ : ∃ f, fuel = f + 1 :=
      ⟨fuel - 1, by have := sizeV_pos (Json.arr (JArr.cons j t)); omega⟩
    have hs : sizeA (JArr.cons j t) ≤ f := by
      rw [sizeV] at hf; omega
    rw [dumpsChars, parseVal.eq_def]
    simp only [List.cons_append, List.append_assoc, List.singleton_append, List.nil_append]
    rw [skipWs_cons_false _ (by decide)]
    simp only [Char.reduceEq, if_false, ite_false, if_true, ite_true, reduceIte]
    obtain ⟨c0, t0, he0, hw0, hb0, _⟩ := dumps_head j
    rw [he0]
    simp only [List.cons_append]
    rw [skipWs_cons_false _ hw0]
    simp only [hb0, if_false, ite_false]
    rw [← List.cons_append, ← he0, rtA j t f rest hs]
    rfl
  | .obj .nil, fuel, rest, hf, _ => by
    obtain ⟨f, rfl⟩ : ∃ f, fuel = f + 1 :=
      ⟨fuel - 1, by have := sizeV_pos (Json.obj JObj.nil); omega⟩
    rw [dumpsChars, parseVal.eq_def]
    simp only [List.cons_append, List.nil_append]
    rw [skipWs_cons_false _ (by decide)]
    simp [skipWs_cons_false, isWsChar]
  | .obj (.cons k v t), fuel, rest, hf, _ => by
    obtain ⟨f, rfl⟩ : ∃ f, fuel = f + 1 :=
      ⟨fuel - 1, by have := sizeV_pos (Json.obj (JObj.cons k v t)); omega⟩
    have hs : sizeO (JObj.cons k v t) ≤ f := by
      rw [sizeV] at hf; omega
    rw [dumpsChars, parseVal.eq_def]
    simp only [List.cons_append, List.append_assoc, List.singleton_append, List.nil_append]
    rw [skipWs_cons_false _ (by decide)]
    simp only [Char.reduceEq, if_false, ite_false, if_true, ite_true, reduceIte]
    rw [skipWs_cons_false _ (by decide)]
    simp only [Char.reduceEq, if_false, ite_false, if_true, ite_true, reduceIte]
    rw [rtO k v t f rest hs]
    rfl
termination_by j _ _ _ _ => sizeOf j

/-- Round trip for a nonempty comma-separated item sequence closed by `]`. -/
def rtA : ∀ (j : Json) (t : JArr) (fuel : Nat) (rest : List Char),
    sizeA (JArr.cons j t) ≤ fuel →
    parseItems fuel (dumpsChars j ++ (dumpsMore t ++ ']' :: rest))
      = Option.some (JArr.cons j t, rest)
  | j, t, fuel, rest, hf => by
    obtain ⟨f, rfl⟩ : ∃ f, fuel = f + 1 := ⟨fuel - 1, by have := sizeA_pos (JArr.cons j t); omega⟩
    rw [sizeA] at hf
    have hjf : sizeV j ≤ f := by have := sizeA_pos t; omega
    rw [parseItems_succ]
    rw [rtV j f (dumpsMore t ++ ']' :: rest) hjf (ndh_more t rest)]
    cases t with
    | nil =>
      rw [dumpsMore]
      simp only [List.nil_append]
      rw [skipWs_cons_false _ (by decide)]
      simp
    | cons j2 t2 =>
      rw [dumpsMore]
      simp only [List.cons_append, List.append_assoc]
      rw [skipWs_cons_false _ (by decide)]
      simp only [Char.reduceEq, if_false, ite_false, if_true, ite_true, reduceIte]
      have hf2 : 2 ≤ f := by
        have := sizeV_pos j; have := sizeV_pos j2; have := sizeA_pos t2
        rw [sizeA] at hf; omega
      rw [parseItems_sp f _ hf2,
        rtA j2 t2 f rest (by rw [sizeA] at hf ⊢; have := sizeV_pos j; omega)]
      rfl
termination_by j t _ _ _ => sizeOf j + sizeOf t + 1

/-- Round trip for a nonempty `"key": value` field sequence closed by `}`. -/
def rtO : ∀ (k : List Char) (v : Json) (t : JObj) (fuel : Nat) (rest : List Char),
    sizeO (JObj.cons k v t) ≤ fuel →
    parseFields fuel
        ('"' :: (escChars k ++ '"' :: ':' :: ' ' :: (dumpsChars v ++ (dumpsMoreF t ++ '}' :: rest))))
      = Option.some (JObj.cons k v t, rest)
  | k, v, t, fuel, rest, hf => by
    obtain ⟨f, rfl⟩ : ∃ f, fuel = f + 1 :=
      ⟨fuel - 1, by have := sizeO_pos (JObj.cons k v t); omega⟩
    rw [sizeO] at hf
    have hvf : sizeV v ≤ f := by have := sizeO_pos t; omega
    rw [parseFields_succ]
    rw [skipWs_cons_false _ (by decide)]
    simp only [Char.reduceEq, if_false, ite_false, if_true, ite_true, reduceIte]
    rw [escRound k _]
    simp only [Char.reduceEq, if_false, ite_false, if_true, ite_true, reduceIte]
    rw [skipWs_cons_false _ (by decide)]
    simp only [Char.reduceEq, if_false, ite_false, if_true, ite_true, reduceIte]
    rw [parseVal_sp f _ (by have := sizeV_pos v; have := sizeO_pos t; omega),
      rtV v f (dumpsMoreF t ++ '}' :: rest) hvf (ndh_moreF t rest)]
    cases t with
    | nil =>
      rw [dumpsMoreF]
      simp only [List.nil_append]
      rw [skipWs_cons_false _ (by decide)]
      simp
    | cons k2 v2 t2 =>
      rw [dumpsMoreF]
      simp only [List.cons_append, List.append_assoc]
      rw [skipWs_cons_false _ (by decide)]
      simp only [Char.reduceEq, if_false, ite_false, if_true, ite_true, reduceIte]
      have hf2 : 1 ≤ f := by have := sizeV_pos v; omega
      rw [parseFields_sp f _ hf2,
        rtO k2 v2 t2 f rest (by rw [sizeO] at hf ⊢; have := sizeV_pos v; omega)]
      rfl
termination_by k v t _ _ _ => sizeOf v + sizeOf t + 1

end

theorem digitChar_ne_nl {d : Nat} (h : d < 16) : Nat.digitChar d ≠ '\n' := by
  interval_cases d <;> decide

theorem noNl_escChar (c : Char) : '\n' ∉ escChar c := by
  rw [escChar]
  split_ifs with h1 h2 h3 h4 h5 h6 h7 h8
  · decide
  · decide
  · decide
  · decide
  · decide
  · decide
  · decide
  · have hdiv : c.toNat / 16 < 16 := by omega
    have hmod : c.toNat % 16 < 16 := Nat.mod_lt _ (by omega)
    have d1 := digitChar_ne_nl hdiv
    have d2 := digitChar_ne_nl hmod
    simp [Ne.symm d1, Ne.symm d2]
  · simp
    intro he
    rw [he] at h3
    exact h3 rfl

theorem noNl_escChars (s : List Char) : '\n' ∉ escChars s := by
  induction s with
  | nil => simp [escChars]
  | cons c t ih =>
    rw [escChars]
    simp [List.mem_append, noNl_escChar c, ih]

theorem noNl_intToChars (n : Int) : '\n' ∉ intToChars n := by
  cases n with
  | ofNat m =>
    rw [intToChars]
    intro h
    exact absurd (natToChars_digits m _ h) (by decide)
  | negSucc m =>
    rw [intToChars]
    intro h
    rcases List.mem_cons.mp h with h | h
    · exact absurd h (by decide)
    · exact absurd (natToChars_digits (m + 1) _ h) (by decide)

mutual

/-- The serializer never emits a raw newline: every newline in the data is
escaped, so each frame occupies exactly one line. -/
def noNlV : ∀ j : Json, '\n' ∉ dumpsChars j
  | .null => by simp [dumpsChars]
  | .bool true => by simp [dumpsChars]
  | .bool false => by simp [dumpsChars]
  | .num n => by rw [dumpsChars]; exact noNl_intToChars n
  | .str s => by
    rw [dumpsChars]
    simp [List.mem_append, noNl_escChars s]
  | .arr .nil => by simp [dumpsChars]
  | .arr (.cons j t) => by
    have h1 := noNlV j
    have h2 := noNlA t
    rw [dumpsChars]
    simp [List.mem_append, h1, h2]
  | .obj .nil => by simp [dumpsChars]
  | .obj (.cons k v t) => by
    have h1 := noNlV v
    have h2 := noNlO t
    rw [dumpsChars]
    simp [List.mem_append, h1, h2, noNl_escChars k]
termination_by j => sizeOf j

def noNlA : ∀ a : JArr, '\n' ∉ dumpsMore a
  | .nil => by simp [dumpsMore]
  | .cons j t => by
    have h1 := noNlV j
    have h2 := noNlA t
    rw [dumpsMore]
    simp [List.mem_append, h1, h2]
termination_by a => sizeOf a

def noNlO : ∀ o : JObj, '\n' ∉ dumpsMoreF o
  | .nil => by simp [dumpsMoreF]
  | .cons k v t => by
    have h1 := noNlV v
    have h2 := noNlO t
    rw [dumpsMoreF]
    simp [List.mem_append, h1, h2, noNl_escChars k]
termination_by o => sizeOf o

end

theorem intToChars_len (n : Int) : 1 ≤ (intToChars n).length := by
  cases n with
  | ofNat m =>
    obtain ⟨c, t, he, _⟩ := natToChars_shape m
    rw [intToChars, he]
    simp
  | negSucc m =>
    rw [intToChars]
    simp

mutual

/-- The fuel that `parseJson` grants (twice the input length plus two) always
covers the fuel the round trip needs. -/
def szV : ∀ j : Json, sizeV j ≤ 2 * (dumpsChars j).length
  | .null => by simp [sizeV, dumpsChars]
  | .bool true => by simp [sizeV, dumpsChars]
  | .bool false => by simp [sizeV, dumpsChars]
  | .num n => by
    have := intToChars_len n
    rw [sizeV, dumpsChars]
    omega
  | .str s => by
    rw [sizeV, dumpsChars]
    simp
    omega
  | .arr .nil => by simp [sizeV, sizeA, dumpsChars]
  | .arr (.cons j t) => by
    have h1 := szV j
    have h2 := szA t
    rw [sizeV, sizeA, dumpsChars]
    simp [List.length_append]
    omega
  | .obj .nil => by simp [sizeV, sizeO, dumpsChars]
  | .obj (.cons k v t) => by
    have h1 := szV v
    have h2 := szO t
    rw [sizeV, sizeO, dumpsChars]
    simp [List.length_append]
    omega
termination_by j => sizeOf j

def szA : ∀ a : JArr, sizeA a ≤ 2 * (dumpsMore a).length + 2
  | .nil => by simp [sizeA, dumpsMore]
  | .cons j t => by
    have h1 := szV j
    have h2 := szA t
    rw [sizeA, dumpsMore]
    simp [List.length_append]
    omega
termination_by a => sizeOf a

def szO : ∀ o : JObj, sizeO o ≤ 2 * (dumpsMoreF o).length + 2
  | .nil => by simp [sizeO, dumpsMoreF]
  | .cons k v t => by
    have h1 := szV v
    have h2 := szO t
    rw [sizeO, dumpsMoreF]
    simp [List.length_append]
    omega
termination_by o => sizeOf o

end

/-- `json.loads` inverts `json.dumps` on every JSON value of the model. -/
theorem parseJson_dumps (j : Json) : parseJson (dumpsChars j) = Option.some j := by
  have h1 : sizeV j ≤ 2 * (dumpsChars j).length + 2 := le_trans (szV j) (by omega)
  have h2 := rtV j (2 * (dumpsChars j).length + 2) [] h1 trivial
  rw [List.append_nil] at h2
  rw [parseJson, h2]
  rfl

theorem rstripNl_append (cs : List Char) (h : '\n' ∉ cs) :
    rstripNl (cs ++ ['\n']) = cs := by
  rw [rstripNl, List.reverse_append]
  simp only [List.reverse_cons, List.reverse_nil, List.nil_append, List.singleton_append,
    List.dropWhile_cons]
  simp only [beq_self_eq_true, if_true, ite_true, reduceIte]
  cases hrev : cs.reverse with
  | nil =>
    rw [List.reverse_eq_nil_iff] at hrev
    simp [hrev]
  | cons x xs =>
    have hx : x ∈ cs := by
      rw [← List.mem_reverse, hrev]
      simp
    have hxne : (x == '\n') = false := by
      simp only [beq_eq_false_iff_ne]
      intro he
      rw [he] at hx
      exact h hx
    rw [List.dropWhile_cons, hxne]
    simp only [Bool.false_eq_true, if_false, ite_false]
    rw [← hrev, List.reverse_reverse]

/-- Evaluating `_call` on one well-formed response line: the request frame is
written, the line is consumed, and the outcome is decided by the payload. -/
theorem callImpl_resp (cap : List Char) (inputs : PyVal) (j : Json) (body : List Char)
    (rest : List (List Char)) (hser : pyToJson inputs = Option.some j)
    (hnl : '\n' ∉ body) :
    callImpl cap inputs (resultLine body :: rest) =
      ⟨callMarker ++ dumpsChars (requestPayload cap j) ++ ['\n'],
        (match parseJson body with
         | Option.none => Except.error Err.jsonError
         | Option.some (Json.obj kvs) =>
           if optTruthy (jsonGet kvs successKey) then
             Except.ok ((jsonGet kvs valueKey).getD Json.null)
           else
             Except.error (Err.capabilityError cap
               ((jsonGet kvs errorKey).getD (Json.str unknownErrorMsg)))
         | Option.some _ => Except.error Err.attrError),
        rest⟩ := by
  have hne : resultLine body ≠ [] := by
    rw [resultLine, resultMarker]
    simp
  have hnlm : '\n' ∉ resultMarker ++ body := by
    rw [List.mem_append]
    rintro (h | h)
    · exact absurd h (by decide)
    · exact hnl h
  have hstrip : rstripNl (resultLine body) = resultMarker ++ body := by
    rw [resultLine]
    exact rstripNl_append _ hnlm
  rw [callImpl.eq_def, hser]
  simp only [hne, if_false, ite_false, hstrip, beginsWith_append, if_true, ite_true,
    List.drop_left, reduceIte]
  cases hp : parseJson body with
  | none => rfl
  | some jp =>
    cases jp with
    | obj kvs =>
      by_cases ht : optTruthy (jsonGet kvs successKey) = true
      · simp [ht]
      · simp [ht]
    | null => rfl
    | bool b => rfl
    | num n => rfl
    | str s => rfl
    | arr a => rfl

/-- The request line `_call` writes is the same in every branch. -/
theorem callImpl_out (cap : List Char) (inputs : PyVal) (j : Json)
    (stdin : List (List Char)) (hser : pyToJson inputs = Option.some j) :
    (callImpl cap inputs stdin).out
      = callMarker ++ dumpsChars (requestPayload cap j) ++ ['\n'] := by
  rw [callImpl.eq_def, hser]
  cases stdin with
  | nil => rfl
  | cons raw rest =>
    simp only []
    by_cases hraw : raw = []
    · rw [if_pos hraw]
    · rw [if_neg hraw]
      by_cases hb : beginsWith resultMarker (rstripNl raw) = true
      · rw [if_pos hb]
        cases parseJson (List.drop resultMarker.length (rstripNl raw)) with
        | none => rfl
        | some jp =>
          cases jp with
          | obj kvs =>
            by_cases ht : optTruthy (jsonGet kvs successKey) = true
            · simp [ht]
            · simp [ht]
          | null => rfl
          | bool b => rfl
          | num n => rfl
          | str s => rfl
          | arr a => rfl
      · rw [if_neg hb]

/-- A closed or immediately empty stdin makes `_call` raise host-disconnected. -/
theorem callImpl_eof (cap : List Char) (inputs : PyVal) (j : Json)
    (hser : pyToJson inputs = Option.some j) :
    callImpl cap inputs []
        = ⟨callMarker ++ dumpsChars (requestPayload cap j) ++ ['\n'],
           Except.error (Err.hostDisconnected cap), []⟩ ∧
    ∀ rest, callImpl cap inputs ([] :: rest)
        = ⟨callMarker ++ dumpsChars (requestPayload cap j) ++ ['\n'],
           Except.error (Err.hostDisconnected cap), rest⟩ := by
  constructor
  · rw [callImpl.eq_def, hser]
  · intro rest
    rw [callImpl.eq_def, hser]
    simp

/-- A nonempty line that does not begin with the response marker makes
`_call` raise a protocol violation quoting the rstripped line. -/
theorem callImpl_nomark (cap : List Char) (inputs : PyVal) (j : Json)
    (raw : List Char) (rest : List (List Char)) (hser : pyToJson inputs = Option.some j)
    (hraw : raw ≠ []) (hb : beginsWith resultMarker (rstripNl raw) = false) :
    callImpl cap inputs (raw :: rest)
      = ⟨callMarker ++ dumpsChars (requestPayload cap j) ++ ['\n'],
         Except.error (Err.protocolViolation cap (rstripNl raw)), rest⟩ := by
  rw [callImpl.eq_def, hser]
  simp only [hraw, if_false, ite_false, hb, Bool.false_eq_true, reduceIte]

theorem optTruthy_true : optTruthy (Option.some (Json.bool true)) = true := rfl

theorem optTruthy_false : optTruthy (Option.some (Json.bool false)) = false := rfl

/-- C1: for every capability id and JSON-serializable inputs, when the host's
reply is a response-marker line whose decoded payload has `success = true`,
`call` returns exactly the payload's `value` field (deep equality on the
decoded structure), and the absent/`None` value (JSON null) when the `value`
field is omitted. -/
theorem call_success_returns_value (cap : List Char) (inputs : PyVal) (j : Json)
    (body : List Char) (kvs : JObj) (rest : List (List Char))
    (hser : pyToJson inputs = Option.some j) (hnl : '\n' ∉ body)
    (hparse : parseJson body = Option.some (Json.obj kvs))
    (hsucc : jsonGet kvs successKey = Option.some (Json.bool true)) :
    (∀ v, jsonGet kvs valueKey = Option.some v →
      (callImpl cap inputs (resultLine body :: rest)).result = Except.ok v) ∧
    (jsonGet kvs valueKey = Option.none →
      (callImpl cap inputs (resultLine body :: rest)).result = Except.ok Json.null) := by
  rw [callImpl_resp cap inputs j body rest hser hnl]
  constructor
  · intro v hv
    simp [hparse, hsucc, hv, optTruthy_true]
  · intro hv
    simp [hparse, hsucc, hv, optTruthy_true]

theorem call_success_returns_value_witness :
    (callImpl ['c', '1'] PyVal.none (resultLine ['{', '"', 's', 'u', 'c', 'c', 'e', 's', 's',
        '"', ':', ' ', 't', 'r', 'u', 'e', ',', ' ', '"', 'v', 'a', 'l', 'u', 'e', '"', ':',
        ' ', '7', '}'] :: [])).result = Except.ok (Json.num 7) :=
  (call_success_returns_value ['c', '1'] PyVal.none Json.null
    ['{', '"', 's', 'u', 'c', 'c', 'e', 's', 's', '"', ':', ' ', 't', 'r', 'u', 'e', ',',
      ' ', '"', 'v', 'a', 'l', 'u', 'e', '"', ':', ' ', '7', '}']
    (JObj.cons successKey (Json.bool true) (JObj.cons valueKey (Json.num 7) JObj.nil)) []
    rfl (by decide) rfl rfl).1 (Json.num 7) rfl

/-- C3: for every request where the response-marker line's payload has
`success = false`, `call` fails with a capability-error failure carrying the
host-supplied error string unchanged, and returns no value. -/
theorem call_failure_error_message (cap : List Char) (inputs : PyVal) (j : Json)
    (body : List Char) (kvs : JObj) (e : List Char) (rest : List (List Char))
    (hser : pyToJson inputs = Option.some j) (hnl : '\n' ∉ body)
    (hparse : parseJson body = Option.some (Json.obj kvs))
    (hsucc : jsonGet kvs successKey = Option.some (Json.bool false))
    (herr : jsonGet kvs errorKey = Option.some (Json.str e)) :
    (callImpl cap inputs (resultLine body :: rest)).result
      = Except.error (Err.capabilityError cap (Json.str e)) := by
  rw [callImpl_resp cap inputs j body rest hser hnl]
  simp [hparse, hsucc, herr, optTruthy_false]

theorem call_failure_error_message_witness :
    (callImpl ['c', '3'] PyVal.none (resultLine ['{', '"', 's', 'u', 'c', 'c', 'e', 's', 's',
        '"', ':', 'f', 'a', 'l', 's', 'e', ',', '"', 'e', 'r', 'r', 'o', 'r', '"', ':', '"',
        'b', 'o', 'o', 'm', '"', '}'] :: [])).result
      = Except.error (Err.capabilityError ['c', '3'] (Json.str ['b', 'o', 'o', 'm'])) :=
  call_failure_error_message ['c', '3'] PyVal.none Json.null
    ['{', '"', 's', 'u', 'c', 'c', 'e', 's', 's', '"', ':', 'f', 'a', 'l', 's', 'e', ',',
      '"', 'e', 'r', 'r', 'o', 'r', '"', ':', '"', 'b', 'o', 'o', 'm', '"', '}']
    (JObj.cons successKey (Json.bool false)
      (JObj.cons errorKey (Json.str ['b', 'o', 'o', 'm']) JObj.nil)) ['b', 'o', 'o', 'm'] []
    rfl (by decide) rfl rfl rfl

/-- C4: for every line read while a call is pending that does not begin with
the response marker, `call` fails with a protocol-violation failure carrying
the offending line (after stripping trailing newlines, as the code quotes
it), and no value is returned. -/
theorem call_protocol_violation (cap : List Char) (inputs : PyVal) (j : Json)
    (raw : List Char) (rest : List (List Char))
    (hser : pyToJson inputs = Option.some j) (hraw : raw ≠ [])
    (hb : beginsWith resultMarker (rstripNl raw) = false) :
    (callImpl cap inputs (raw :: rest)).result
      = Except.error (Err.protocolViolation cap (rstripNl raw)) := by
  rw [callImpl_nomark cap inputs j raw rest hser hraw hb]

theorem call_protocol_violation_witness :
    (callImpl ['c', '4'] PyVal.none (['o', 'k'] :: [])).result
      = Except.error (Err.protocolViolation ['c', '4'] ['o', 'k']) :=
  call_protocol_violation ['c', '4'] PyVal.none Json.null ['o', 'k'] []
    rfl (by decide) (by decide)

/-- C5: if the input stream is closed (end of stream, or an empty read)
before a response line arrives, `call` fails with a host-disconnected
failure identifying the capability in flight. -/
theorem call_host_disconnected (cap : List Char) (inputs : PyVal) (j : Json)
    (hser : pyToJson inputs = Option.some j) :
    (callImpl cap inputs []).result = Except.error (Err.hostDisconnected cap) ∧
    ∀ rest, (callImpl cap inputs ([] :: rest)).result
      = Except.error (Err.hostDisconnected cap) := by
  constructor
  · rw [(callImpl_eof cap inputs j hser).1]
  · intro rest
    rw [(callImpl_eof cap inputs j hser).2 rest]

theorem call_host_disconnected_witness :
    (callImpl ['c', '5'] PyVal.none []).result
        = Except.error (Err.hostDisconnected ['c', '5']) ∧
    (callImpl ['c', '5'] PyVal.none ([] :: [])).result
        = Except.error (Err.hostDisconnected ['c', '5']) :=
  ⟨(call_host_disconnected ['c', '5'] PyVal.none Json.null rfl).1,
   (call_host_disconnected ['c', '5'] PyVal.none Json.null rfl).2 []⟩

/-- C6: for every message and every host behaviour (success reply, failure
reply, marker-less reply, closed input stream — any stdin whatsoever),
`io.log` returns normally and never propagates an error. -/
theorem io_log_never_fails (message : List Char) (stdin : List (List Char)) :
    (ioLog message stdin).result = Except.ok () := by
  cases h : (callImpl ioLogCap
      (PyVal.dict (PyDict.cons messageKey (PyVal.str message) PyDict.nil)) stdin).result with
  | ok v => simp [ioLog, h]
  | error e => simp [ioLog, h]

/-- C7: the request `call` emits is exactly one newline-terminated line
consisting of the call marker followed by one complete JSON object with no
embedded raw newline, and decoding that payload yields back
`{"cap": capability_id, "inputs": inputs}`. -/
theorem call_request_framing (cap : List Char) (inputs : PyVal) (j : Json)
    (stdin : List (List Char)) (hser : pyToJson inputs = Option.some j) :
    (callImpl cap inputs stdin).out
        = callMarker ++ dumpsChars (requestPayload cap j) ++ ['\n'] ∧
    '\n' ∉ callMarker ++ dumpsChars (requestPayload cap j) ∧
    parseJson (dumpsChars (requestPayload cap j))
        = Option.some (requestPayload cap j) := by
  refine ⟨callImpl_out cap inputs j stdin hser, ?_, parseJson_dumps _⟩
  rw [List.mem_append]
  rintro (h | h)
  · exact absurd h (by decide)
  · exact noNlV _ h

theorem call_request_framing_witness :
    (callImpl ['c', '7'] (PyVal.dict PyDict.nil) []).out
        = callMarker ++ dumpsChars (requestPayload ['c', '7'] (Json.obj JObj.nil)) ++ ['\n'] ∧
    '\n' ∉ callMarker ++ dumpsChars (requestPayload ['c', '7'] (Json.obj JObj.nil)) ∧
    parseJson (dumpsChars (requestPayload ['c', '7'] (Json.obj JObj.nil)))
        = Option.some (requestPayload ['c', '7'] (Json.obj JObj.nil)) :=
  call_request_framing ['c', '7'] (PyVal.dict PyDict.nil) (Json.obj JObj.nil) [] rfl

/-- C9: a payload whose `success` field is omitted or not truthy is treated
as a capability failure, with the error message falling back to the literal
`unknown error` when the `error` field is also absent; no value is
returned. -/
theorem call_not_success_fallback (cap : List Char) (inputs : PyVal) (j : Json)
    (body : List Char) (kvs : JObj) (rest : List (List Char))
    (hser : pyToJson inputs = Option.some j) (hnl : '\n' ∉ body)
    (hparse : parseJson body = Option.some (Json.obj kvs))
    (hfail : optTruthy (jsonGet kvs successKey) = false) :
    (callImpl cap inputs (resultLine body :: rest)).result
      = Except.error (Err.capabilityError cap
          ((jsonGet kvs errorKey).getD (Json.str unknownErrorMsg))) := by
  rw [callImpl_resp cap inputs j body rest hser hnl]
  simp [hparse, hfail]

theorem call_not_success_fallback_witness :
    (callImpl ['c', '9'] PyVal.none (resultLine ['{', '"', 'o', 'k', '"', ':', '1', '}']
        :: [])).result
      = Except.error (Err.capabilityError ['c', '9'] (Json.str unknownErrorMsg)) :=
  call_not_success_fallback ['c', '9'] PyVal.none Json.null
    ['{', '"', 'o', 'k', '"', ':', '1', '}']
    (JObj.cons ['o', 'k'] (Json.num 1) JObj.nil) [] rfl (by decide) rfl rfl

/-- C10: when the inputs are not JSON-serializable, `call` raises during
request serialization before writing anything: no byte of a request frame is
emitted and no stdin line is consumed. -/
theorem call_unserializable_no_output (cap : List Char) (inputs : PyVal)
    (stdin : List (List Char)) (h : pyToJson inputs = Option.none) :
    callImpl cap inputs stdin = ⟨[], Except.error Err.typeError, stdin⟩ := by
  rw [callImpl.eq_def, h]

theorem call_unserializable_no_output_witness :
    callImpl ['x'] PyVal.obj (['y'] :: [])
      = ⟨[], Except.error Err.typeError, ['y'] :: []⟩ :=
  call_unserializable_no_output ['x'] PyVal.obj (['y'] :: []) rfl

/-- C2: `memory.get(key, D)` invokes `ccos.memory.get` with `{key, default}`;
when the capability result reports `found = false` it returns `D` regardless
of the result's `value` field, and when it reports `found = true` it returns
the stored value from the `value` field. -/
theorem memory_get_semantics (key : List Char) (dflt : PyVal) (dj : Json)
    (body : List Char) (kvs rkvs : JObj) (rest : List (List Char))
    (hd : pyToJson dflt = Option.some dj) (hnl : '\n' ∉ body)
    (hparse : parseJson body = Option.some (Json.obj kvs))
    (hsucc : jsonGet kvs successKey = Option.some (Json.bool true))
    (hval : jsonGet kvs valueKey = Option.some (Json.obj rkvs)) :
    (memoryGet key dflt (resultLine body :: rest)).out
        = callMarker ++ dumpsChars (requestPayload memGetCap
            (Json.obj (JObj.cons keyKey (Json.str key)
              (JObj.cons defaultKey dj JObj.nil)))) ++ ['\n'] ∧
    (jsonGet rkvs foundKey = Option.some (Json.bool false) →
      (memoryGet key dflt (resultLine body :: rest)).result = Except.ok dflt) ∧
    (∀ v, jsonGet rkvs foundKey = Option.some (Json.bool true) →
      jsonGet rkvs valueKey = Option.some v →
      (memoryGet key dflt (resultLine body :: rest)).result = Except.ok (jsonToPy v)) := by
  have hser : pyToJson (PyVal.dict (PyDict.cons keyKey (PyVal.str key)
      (PyDict.cons defaultKey dflt PyDict.nil)))
      = Option.some (Json.obj (JObj.cons keyKey (Json.str key)
          (JObj.cons defaultKey dj JObj.nil))) := by
    simp [pyToJson, pyDictToJson, hd]
  have hc := callImpl_resp memGetCap
    (PyVal.dict (PyDict.cons keyKey (PyVal.str key) (PyDict.cons defaultKey dflt PyDict.nil)))
    (Json.obj (JObj.cons keyKey (Json.str key) (JObj.cons defaultKey dj JObj.nil)))
    body rest hser hnl
  have hm : memoryGet key dflt (resultLine body :: rest)
      = ⟨callMarker ++ dumpsChars (requestPayload memGetCap
            (Json.obj (JObj.cons keyKey (Json.str key)
              (JObj.cons defaultKey dj JObj.nil)))) ++ ['\n'],
         (if optTruthy (jsonGet rkvs foundKey) then
            Except.ok (((jsonGet rkvs valueKey).map jsonToPy).getD dflt)
          else Except.ok dflt), rest⟩ := by
    unfold memoryGet
    rw [hc]
    simp [hparse, hsucc, hval, optTruthy_true]
    by_cases ht : optTruthy (jsonGet rkvs foundKey) = true
    · simp [ht]
    · simp [ht]
  refine ⟨by rw [hm], fun hf => ?_, fun v hf hv => ?_⟩
  · rw [hm]
    simp [hf, optTruthy_false]
  · rw [hm]
    simp [hf, hv, optTruthy_true]

theorem memory_get_semantics_witness :
    (memoryGet ['k'] (PyVal.int 5) (resultLine ['{', '"', 's', 'u', 'c', 'c', 'e', 's', 's',
        '"', ':', 't', 'r', 'u', 'e', ',', '"', 'v', 'a', 'l', 'u', 'e', '"', ':', '{', '"',
        'f', 'o', 'u', 'n', 'd', '"', ':', 't', 'r', 'u', 'e', ',', '"', 'v', 'a', 'l', 'u',
        'e', '"', ':', '3', '}', '}'] :: [])).result
      = Except.ok (PyVal.int 3) :=
  (memory_get_semantics ['k'] (PyVal.int 5) (Json.num 5)
    ['{', '"', 's', 'u', 'c', 'c', 'e', 's', 's', '"', ':', 't', 'r', 'u', 'e', ',', '"',
      'v', 'a', 'l', 'u', 'e', '"', ':', '{', '"', 'f', 'o', 'u', 'n', 'd', '"', ':', 't',
      'r', 'u', 'e', ',', '"', 'v', 'a', 'l', 'u', 'e', '"', ':', '3', '}', '}']
    (JObj.cons successKey (Json.bool true)
      (JObj.cons valueKey (Json.obj (JObj.cons foundKey (Json.bool true)
        (JObj.cons valueKey (Json.num 3) JObj.nil))) JObj.nil))
    (JObj.cons foundKey (Json.bool true) (JObj.cons valueKey (Json.num 3) JObj.nil)) []
    rfl (by decide) rfl rfl rfl).2.2 (Json.num 3) rfl rfl

/-- C8: if the `ccos.memory.get` capability result decodes to something that
is not a dict (a list, string, number, boolean or null), `memory.get`
returns the default rather than raising or returning the raw result. -/
theorem memory_get_non_dict_default (key : List Char) (dflt : PyVal) (dj : Json)
    (body : List Char) (kvs : JObj) (v : Json) (rest : List (List Char))
    (hd : pyToJson dflt = Option.some dj) (hnl : '\n' ∉ body)
    (hparse : parseJson body = Option.some (Json.obj kvs))
    (hsucc : jsonGet kvs successKey = Option.some (Json.bool true))
    (hval : jsonGet kvs valueKey = Option.some v)
    (hnd : ∀ o : JObj, v ≠ Json.obj o) :
    (memoryGet key dflt (resultLine body :: rest)).result = Except.ok dflt := by
  have hser : pyToJson (PyVal.dict (PyDict.cons keyKey (PyVal.str key)
      (PyDict.cons defaultKey dflt PyDict.nil)))
      = Option.some (Json.obj (JObj.cons keyKey (Json.str key)
          (JObj.cons defaultKey dj JObj.nil))) := by
    simp [pyToJson, pyDictToJson, hd]
  have hc := callImpl_resp memGetCap
    (PyVal.dict (PyDict.cons keyKey (PyVal.str key) (PyDict.cons defaultKey dflt PyDict.nil)))
    (Json.obj (JObj.cons keyKey (Json.str key) (JObj.cons defaultKey dj JObj.nil)))
    body rest hser hnl
  unfold memoryGet
  rw [hc]
  simp only [hparse, hsucc, hval, optTruthy_true, if_true, ite_true, reduceIte]
  cases v with
  | obj o => exact absurd rfl (hnd o)
  | null => rfl
  | bool b => rfl
  | num n => rfl
  | str s => rfl
  | arr a => rfl

theorem memory_get_non_dict_default_witness :
    (memoryGet ['k', '8'] (PyVal.int 6) (resultLine ['{', '"', 's', 'u', 'c', 'c', 'e', 's',
        's', '"', ':', 't', 'r', 'u', 'e', ',', '"', 'v', 'a', 'l', 'u', 'e', '"', ':', '[',
        '1', ']', '}'] :: [])).result
      = Except.ok (PyVal.int 6) :=
  memory_get_non_dict_default ['k', '8'] (PyVal.int 6) (Json.num 6)
    ['{', '"', 's', 'u', 'c', 'c', 'e', 's', 's', '"', ':', 't', 'r', 'u', 'e', ',', '"',
      'v', 'a', 'l', 'u', 'e', '"', ':', '[', '1', ']', '}']
    (JObj.cons successKey (Json.bool true)
      (JObj.cons valueKey (Json.arr (JArr.cons (Json.num 1) JArr.nil)) JObj.nil))
    (Json.arr (JArr.cons (Json.num 1) JArr.nil)) []
    rfl (by decide) rfl rfl rfl (fun o h => Json.noConfusion h)
